import Mathlib

/-!
Verification of the attestation pipeline of the `test-script` repository:
the canonical attestation encoder, the push-notification decoder, the
block-identity and receipts-root wait loops, the per-push processing of
`runOnce`, the reconnect logic of `RunWSValidator`, and the BLS signing
adapter.  Go byte slices are embedded as `List Nat` (each element < 256),
Go strings as `List Char`, `uint64` as `Nat` with explicit `% 2^64` where
Go truncates, and fallible Go functions as `Option`/`Except`.  Blocking
polls are embedded with an explicit poll budget (fuel) standing for the
deadline, and the RPC endpoints as oracles `Nat → Option _` giving the
result of the k-th poll.
-/

namespace Attest

/-! ## Character and text utilities (Go `fmt`, `strings`, `strconv`, `hex`) -/

/-- Decimal digit character: `digitChar d` is the ASCII digit for `d < 10`. -/
def digitChar (d : Nat) : Char := Char.ofNat (48 + d)

/-- Accumulator loop of decimal rendering: peels digits from the low end,
building the most-significant-first digit list (what Go `fmt` `%d` prints).
The first argument is a structural fuel bound on the digit count; any fuel
of at least `n` suffices since `n / 10 < n` for positive `n`. -/
def decDigitsAux : Nat → Nat → List Char → List Char
  | 0, _, acc => acc
  | _ + 1, 0, acc => acc
  | fuel + 1, n, acc => decDigitsAux fuel (n / 10) (digitChar (n % 10) :: acc)

/-- Decimal rendering of an unsigned integer, as Go `fmt.Sprintf` with verb
`%d` prints a `uint64`. -/
def decRepr (n : Nat) : List Char :=
  if n = 0 then ['0'] else decDigitsAux n n []

/-- Lowercase hex digit character for a nibble `d < 16`. -/
def hexCharLower (d : Nat) : Char :=
  if d < 10 then Char.ofNat (48 + d) else Char.ofNat (87 + d)

/-- Two lowercase hex characters of one byte (Go `encoding/hex` encoding). -/
def byteHex (b : Nat) : List Char := [hexCharLower (b / 16), hexCharLower (b % 16)]

/-- Lowercase hex encoding of a byte slice (Go `hex.EncodeToString`). -/
def bytesHex (bs : List Nat) : List Char := (bs.map byteHex).flatten

/-- Whitespace characters JSON/Go would insert or strip (space, tab, LF, CR). -/
def isWS (c : Char) : Bool :=
  c = ' ' || c = '\t' || c = '\n' || c = '\r'

/-- ASCII space characters recognised by Go `strings.TrimSpace` on the inputs
the decoder sees (space, tab, LF, CR, VT, FF). -/
def isSpaceChar (c : Char) : Bool :=
  c = ' ' || c = '\t' || c = '\n' || c = '\r' ||
  c = Char.ofNat 11 || c = Char.ofNat 12

/-- Go `strings.TrimSpace`: drop leading and trailing whitespace. -/
def trimSpace (s : List Char) : List Char :=
  ((s.dropWhile isSpaceChar).reverse.dropWhile isSpaceChar).reverse

/-- Value of one hex digit character, either case (Go `fromHexChar`). -/
def hexVal? (c : Char) : Option Nat :=
  if 48 ≤ c.toNat ∧ c.toNat ≤ 57 then some (c.toNat - 48)
  else if 97 ≤ c.toNat ∧ c.toNat ≤ 102 then some (c.toNat - 87)
  else if 65 ≤ c.toNat ∧ c.toNat ≤ 70 then some (c.toNat - 55)
  else none

/-- Horner accumulation of a hex digit string; `none` on the first non-digit. -/
def hexAccum : List Char → Nat → Option Nat
  | [], acc => some acc
  | c :: rest, acc =>
    match hexVal? c with
    | some d => hexAccum rest (acc * 16 + d)
    | none => none

/-- Value of a non-empty all-hex-digit string (the digits part of Go
`big.Int.SetString` with base 16, which forbids underscores for an
explicit base). -/
def hexDigitsVal (cs : List Char) : Option Nat :=
  match cs with
  | [] => none
  | _ => hexAccum cs 0

/-- Go `new(big.Int).SetString(s, 16)`: an optional sign followed by at
least one hex digit. -/
def setStringHex (cs : List Char) : Option Int :=
  match cs with
  | '+' :: rest => (hexDigitsVal rest).map Int.ofNat
  | '-' :: rest => (hexDigitsVal rest).map (fun n => -(Int.ofNat n))
  | _ => (hexDigitsVal cs).map Int.ofNat

/-- Go `big.Int.Uint64`: the low 64 bits of the magnitude. -/
def bigIntUint64 (i : Int) : Nat := i.natAbs % 2 ^ 64

/-- Value of one decimal digit character. -/
def decVal? (c : Char) : Option Nat :=
  if 48 ≤ c.toNat ∧ c.toNat ≤ 57 then some (c.toNat - 48) else none

/-- Horner accumulation of a decimal digit string; `none` on a non-digit. -/
def decAccum : List Char → Nat → Option Nat
  | [], acc => some acc
  | c :: rest, acc =>
    match decVal? c with
    | some d => decAccum rest (acc * 10 + d)
    | none => none

/-- Value of a non-empty all-decimal-digit string. -/
def decDigitsVal (cs : List Char) : Option Nat :=
  match cs with
  | [] => none
  | _ => decAccum cs 0

/-- Go `strconv.ParseUint(s, 10, 64)`: decimal digits only (no sign, no
underscores), error when empty, malformed or above `2^64 - 1`. -/
def parseUint64Dec (cs : List Char) : Option Nat :=
  match decDigitsVal cs with
  | some v => if v < 2 ^ 64 then some v else none
  | none => none

/-- Tests for the exact prefix `0x` (Go `strings.HasPrefix(s, "0x")`). -/
def startsWith0xExact : List Char → Bool
  | '0' :: 'x' :: _ => true
  | _ => false

/-- Tests for `0x` or `0X` (the two `HasPrefix` checks of `parseUint64JSON`
and Go `common.FromHex`). -/
def startsWith0xAnyCase : List Char → Bool
  | '0' :: 'x' :: _ => true
  | '0' :: 'X' :: _ => true
  | _ => false

/-- Go `hex.DecodeString` with the error ignored (`common.Hex2Bytes`, and the
`b, _ :=` call sites): decodes full pairs until the first invalid pair or a
trailing odd character. -/
def hexPairsDecode : List Char → List Nat
  | a :: b :: rest =>
    match hexVal? a, hexVal? b with
    | some x, some y => (16 * x + y) :: hexPairsDecode rest
    | _, _ => []
  | _ => []

/-- Go `hex.DecodeString` with the error checked (the BLS key loader):
`none` on an odd length or any invalid character. -/
def hexDecodeStrict : List Char → Option (List Nat)
  | [] => some []
  | [_] => none
  | a :: b :: rest =>
    match hexVal? a, hexVal? b with
    | some x, some y => (hexDecodeStrict rest).map (fun t => (16 * x + y) :: t)
    | _, _ => none

/-- Go `common.BytesToHash`: keep the last 32 bytes, left-pad with zeros. -/
def bytesToHash (bs : List Nat) : List Nat :=
  let b := if bs.length > 32 then bs.drop (bs.length - 32) else bs
  List.replicate (32 - b.length) 0 ++ b

/-- Go `common.BytesToAddress`: keep the last 20 bytes, left-pad with zeros. -/
def bytesToAddress (bs : List Nat) : List Nat :=
  let b := if bs.length > 20 then bs.drop (bs.length - 20) else bs
  List.replicate (20 - b.length) 0 ++ b

/-- Go `common.HexToHash`: strip an optional `0x`/`0X`, left-pad an odd-length
string with `0`, decode ignoring errors, and fit to 32 bytes. -/
def hexToHash (s : List Char) : List Nat :=
  let raw := if startsWith0xAnyCase s then s.drop 2 else s
  let raw := if raw.length % 2 = 1 then '0' :: raw else raw
  bytesToHash (hexPairsDecode raw)

/-- Go `common.HexToAddress`, analogous to `hexToHash` at 20 bytes. -/
def hexToAddress (s : List Char) : List Nat :=
  let raw := if startsWith0xAnyCase s then s.drop 2 else s
  let raw := if raw.length % 2 = 1 then '0' :: raw else raw
  bytesToAddress (hexPairsDecode raw)

/-- The all-zero 32-byte hash, Go `common.Hash{}`. -/
def zeroHash : List Nat := List.replicate 32 0

/-- The all-zero 20-byte address, Go `common.Address{}`. -/
def zeroAddress : List Nat := List.replicate 20 0

/-- ASCII lowering of one character (what Go `strings.ToLower` does on the
ASCII hex strings it is applied to here). -/
def toLowerChar (c : Char) : Char :=
  if 65 ≤ c.toNat ∧ c.toNat ≤ 90 then Char.ofNat (c.toNat + 32) else c

/-- Go `strings.ToLower` on an ASCII string. -/
def toLowerStr (s : List Char) : List Char := s.map toLowerChar

/-- Lowercase hex digit test (`0`-`9` or `a`-`f`). -/
def isLowerHexDigit (c : Char) : Bool :=
  (decide (48 ≤ c.toNat) && decide (c.toNat ≤ 57)) ||
  (decide (97 ≤ c.toNat) && decide (c.toNat ≤ 102))

/-! ## Canonical attestation encoder (`AttestationData`, `MarshalAttestationJSON`) -/

/-- The attestation record (`AttestationData` in the source): slot and
committee index are `uint64`, the receipts root a 32-byte hash. -/
structure AttestationData where
  slot : Nat
  committee_index : Nat
  receipts_root : List Nat
deriving DecidableEq

/-- Go `common.Hash.Hex`: `0x` followed by the lowercase hex of the 32 bytes. -/
def hashHex (h : List Nat) : List Char := '0' :: 'x' :: bytesHex h

/-- Go `BuildAttestationData`. -/
def BuildAttestationData (slot committeeIdx : Nat) (receiptsRoot : List Nat) :
    AttestationData :=
  ⟨slot, committeeIdx, receiptsRoot⟩

/-- Go `MarshalAttestationJSON`: the canonical whitespace-free byte encoding
`fmt.Sprintf` produces, with `root := strings.ToLower(att.ReceiptsRoot.Hex())`. -/
def MarshalAttestationJSON (att : AttestationData) : List Char :=
  ("\x7b\"slot\":".data) ++ decRepr att.slot ++
  (",\"committee_index\":".data) ++ decRepr att.committee_index ++
  (",\"receipts_root\":\"".data) ++ toLowerStr (hashHex att.receipts_root) ++
  ("\"\x7d".data)

/-! ## Number parsing (`parseUint64JSON`) -/

/-- The JSON value behind a raw number field, as the three `json.Unmarshal`
attempts of `parseUint64JSON` distinguish it: a JSON string, a bare JSON
number (carried as its literal text), or anything else (array, object,
boolean), on which all three attempts fail.  A JSON `null` unmarshals into a
Go `string` as a no-op, so it behaves exactly as the empty string and is
embedded as `jstr []` by `toJVal` below. -/
inductive JVal where
  | jstr (s : List Char)
  | jnum (lit : List Char)
  | jother
deriving DecidableEq

/-- Go `parseUint64JSON` (ws.go): try string (trim, `0x`/`0X` hex via
`big.Int` with 64-bit truncation, else decimal `strconv.ParseUint`), then
bare `uint64`, then `json.Number`; the last two both reduce to a decimal
parse of the number literal (a JSON number literal can never carry `0x`,
but the source's check is kept). -/
def parseUint64JSON : Option JVal → Except (List Char) Nat
  | none => .error ("nil".data)
  | some (.jstr s0) =>
    let s := trimSpace s0
    if s.isEmpty then .error ("empty string".data)
    else if startsWith0xAnyCase s then
      match setStringHex (s.drop 2) with
      | some i => .ok (bigIntUint64 i)
      | none => .error ("bad hex number".data)
    else
      match parseUint64Dec s with
      | some u => .ok u
      | none => .error ("bad dec number".data)
  | some (.jnum lit) =>
    match parseUint64Dec lit with
    | some u => .ok u
    | none =>
      if startsWith0xExact lit then
        match setStringHex (lit.drop 2) with
        | some i => .ok (bigIntUint64 i)
        | none => .error ("bad hex number".data)
      else
        match parseUint64Dec lit with
        | some u => .ok u
        | none => .error ("bad number".data)
  | some .jother => .error ("unknown number encoding".data)

/-- True exactly on `Except.ok`. -/
def exceptOk {ε α : Type} : Except ε α → Bool
  | .ok _ => true
  | .error _ => false

instance {ε α : Type} [DecidableEq ε] [DecidableEq α] :
    DecidableEq (Except ε α) := fun
  | .ok a, .ok b =>
    if h : a = b then isTrue (by rw [h])
    else isFalse (by intro he; cases he; exact h rfl)
  | .ok _, .error _ => isFalse (by intro h; cases h)
  | .error _, .ok _ => isFalse (by intro h; cases h)
  | .error e, .error f =>
    if h : e = f then isTrue (by rw [h])
    else isFalse (by intro he; cases he; exact h rfl)

/-! ## Push header decoding (the two header shapes of `runOnce`) -/

/-- A JSON document, the input space of the `json.Unmarshal` calls.  Numbers
carry their literal text. -/
inductive Json where
  | null
  | jbool (b : Bool)
  | jstr (s : List Char)
  | jnum (lit : List Char)
  | jarr (xs : List Json)
  | jobj (fields : List (List Char × Json))

/-- Go `encoding/json` object-field semantics: with a duplicated key the
later value overwrites the earlier one. -/
def lookupLast (fs : List (List Char × Json)) (k : List Char) : Option Json :=
  fs.foldl (fun acc kv => if kv.1 = k then some kv.2 else acc) none

/-- View of a JSON value as the content of a `*json.RawMessage` field, for
`parseUint64JSON`: a `null` raw message step-1-unmarshals into a string as a
no-op, so it is carried as the empty string. -/
def toJVal : Json → JVal
  | .jstr s => .jstr s
  | .jnum lit => .jnum lit
  | .null => .jstr []
  | _ => .jother

/-- Decoded `headerMinimal`: `Number *json.RawMessage` and `Hash *string`. -/
structure HdrMin where
  number : Option JVal
  hash : Option (List Char)

/-- Keys of the header JSON objects. -/
def keyNumber : List Char := ("number".data)

/-- Key of the hash field. -/
def keyHash : List Char := ("hash".data)

/-- Key of the nested header of shape A. -/
def keyHeader : List Char := ("header".data)

/-- Key of the transactions array of `bodyMinimal`. -/
def keyTransactions : List Char := ("transactions".data)

/-- Go `json.Unmarshal` of a raw header into `headerMinimal` (shape B).
`none` models the error return: the value must be an object or `null`
(a `null` leaves the zero struct).  A `number` field captures any JSON in
its `RawMessage` except `null`, which nils the pointer; a `hash` field must
be a string or `null`, any other type fails the whole unmarshal.  The
argument is the raw message itself, `none` standing for an absent/empty
`json.RawMessage`, on which `json.Unmarshal` also errors. -/
def unmarshalHeaderMinimal : Option Json → Option HdrMin
  | none => none
  | some .null => some ⟨none, none⟩
  | some (.jobj fs) =>
    let num : Option JVal :=
      match lookupLast fs keyNumber with
      | none => none
      | some .null => none
      | some j => some (toJVal j)
    match lookupLast fs keyHash with
    | none => some ⟨num, none⟩
    | some .null => some ⟨num, none⟩
    | some (.jstr s) => some ⟨num, some s⟩
    | some _ => none
  | some _ => none

/-- Go `json.Unmarshal` into `sealedBlockEnvelopeA` (shape A), keeping only
the `Header headerMinimal` field (the `Body json.RawMessage` captures
anything).  An absent `header` key leaves the zero `headerMinimal`; a
present one must itself unmarshal as `headerMinimal`. -/
def unmarshalEnvelopeA : Option Json → Option HdrMin
  | none => none
  | some .null => some ⟨none, none⟩
  | some (.jobj fs) =>
    match lookupLast fs keyHeader with
    | none => some ⟨none, none⟩
    | some ij => unmarshalHeaderMinimal (some ij)
  | some _ => none

/-- The identity `runOnce` extracts from a push: `slot`, `hash` (zero when
unset) and the `ok` flag. -/
structure DecodedId where
  slot : Nat
  hash : List Nat
  ok : Bool
deriving DecidableEq

/-- The hash-string acceptance test of `runOnce`:
`strings.HasPrefix(h, "0x") && len(h) == 66`.  The source never verifies
that the remaining 64 characters are hex digits. -/
def hashStrAccepted (h : List Char) : Bool :=
  startsWith0xExact h && h.length == 66

/-- One header shape applied to the running state, as in `runOnce`: a
present `number` that parses sets `slot` and `ok`; otherwise a present,
accepted `hash` string sets `hash` and `ok`. -/
def applyHdr (hm : HdrMin) (st : DecodedId) : DecodedId :=
  let st1 :=
    match hm.number with
    | some jv =>
      match parseUint64JSON (some jv) with
      | .ok v => { st with slot := v, ok := true }
      | .error _ => st
    | none => st
  if st1.ok then st1
  else
    match hm.hash with
    | some h =>
      if hashStrAccepted h then { st1 with hash := hexToHash h, ok := true }
      else st1
    | none => st1

/-- The number/hash extraction of `runOnce` (ws.go lines 240-298): try
shape A (`blockbody.header = ⦃header: ⦃number,...⦄, body⦄`), and only if it
yielded nothing, shape B (`blockbody.header = ⦃number,...⦄`). -/
def decodeIdentity (hj : Option Json) : DecodedId :=
  let st0 : DecodedId := ⟨0, zeroHash, false⟩
  let st1 :=
    match unmarshalEnvelopeA hj with
    | some hm => applyHdr hm st0
    | none => st0
  if st1.ok then st1
  else
    match unmarshalHeaderMinimal hj with
    | some hm => applyHdr hm st1
    | none => st1

/-- What one header shape yields for the decode step: a parseable number or
an accepted hash string (`none` = the shape's unmarshal failed). -/
def shapeYields : Option HdrMin → Bool
  | none => false
  | some hm =>
    (match hm.number with
     | some jv => exceptOk (parseUint64JSON (some jv))
     | none => false) ||
    (match hm.hash with
     | some h => hashStrAccepted h
     | none => false)

/-- Transaction-count extraction of `runOnce`: an absent or unparseable
body, or one without a `transactions` array, counts as zero. -/
def txCountOf : Option Json → Nat
  | none => 0
  | some (.jobj fs) =>
    match lookupLast fs keyTransactions with
    | some (.jarr xs) => xs.length
    | _ => 0
  | some _ => 0

/-! ## Receipt reconstruction (`decodeGethReceiptFromRPC`) -/

/-- One entry of the RPC `logs` array as the decoder reads it.  A `getH`-style
type assertion that fails (absent key, or a non-string where a string is
read) behaves exactly as absence, so string-read fields are `Option`;
`topics` elements that are not strings are carried as `none`.  An array
entry that is not an object at all asserts to a nil map, on which every
lookup fails — it is the all-`none` record. -/
structure RawLog where
  address : Option (List Char)
  topics : Option (List (Option (List Char)))
  data : Option (List Char)

/-- The receipt JSON object returned by `eth_getTransactionReceipt`, reduced
to the fields `decodeGethReceiptFromRPC` reads.  `none` is an absent key or
a value of the wrong type (both make the Go type assertion yield the zero
value). -/
structure RawReceipt where
  status : Option (List Char)
  cumulativeGasUsed : Option (List Char)
  logsBloom : Option (List Char)
  logs : Option (List RawLog)
  transactionHash : Option (List Char)
  contractAddress : Option (List Char)
  blockHash : Option (List Char)

/-- One reconstructed log (`types.Log`, the fields the decoder sets). -/
structure LogEntry where
  address : List Nat
  topics : List (List Nat)
  data : List Nat
deriving DecidableEq

/-- The reconstructed receipt (`types.Receipt`, the fields the decoder sets;
`bloom` is the 256-byte `types.Bloom`). -/
structure MinimalReceipt where
  status : Nat
  cumulativeGasUsed : Nat
  logs : List LogEntry
  bloom : List Nat
  txHash : List Nat
  contractAddress : List Nat
  blockHash : List Nat
deriving DecidableEq

/-- Go `safeString`: the string value, or empty for anything else. -/
def safeString : Option (List Char) → List Char
  | some s => s
  | none => []

/-- The `status`/`cumulativeGasUsed` parse of the decoder: a `0x`-prefixed
string parsed by `big.Int.SetString` base 16 and truncated by `Uint64`;
anything else keeps the default. -/
def parseHexFieldOr (dflt : Nat) : Option (List Char) → Nat
  | some s =>
    if startsWith0xExact s then
      match setStringHex (s.drop 2) with
      | some i => bigIntUint64 i
      | none => dflt
    else dflt
  | none => dflt

/-- One log of the `logs` array, as the decoder rebuilds it. -/
def decodeLog (l : RawLog) : LogEntry :=
  { address :=
      match l.address with
      | some a => hexToAddress a
      | none => zeroAddress
    topics :=
      match l.topics with
      | some ts =>
        (ts.filterMap fun t =>
          match t with
          | some s => if startsWith0xExact s then some (hexToHash s) else none
          | none => none)
      | none => []
    data :=
      match l.data with
      | some d => if startsWith0xExact d then hexPairsDecode (d.drop 2) else []
      | none => [] }

/-- The `logsBloom` decode: a `0x` string whose payload decodes to exactly
256 bytes replaces the zero bloom. -/
def decodeBloom : Option (List Char) → List Nat
  | some s =>
    if startsWith0xExact s then
      let b := hexPairsDecode (s.drop 2)
      if b.length = 256 then b else List.replicate 256 0
    else List.replicate 256 0
  | none => List.replicate 256 0

/-- The receipt `decodeGethReceiptFromRPC` builds.  Note the source
initialises `status` to 1, not 0, before the optional parse. -/
def decodeReceiptBody (raw : RawReceipt) : MinimalReceipt :=
  { status := parseHexFieldOr 1 raw.status
    cumulativeGasUsed := parseHexFieldOr 0 raw.cumulativeGasUsed
    logs :=
      match raw.logs with
      | some ls => ls.map decodeLog
      | none => []
    bloom := decodeBloom raw.logsBloom
    txHash := hexToHash (safeString raw.transactionHash)
    contractAddress := hexToAddress (safeString raw.contractAddress)
    blockHash := hexToHash (safeString raw.blockHash) }

/-- Go `decodeGethReceiptFromRPC`: its only return statement is
`return rcpt, nil`, so the error component is always nil. -/
def decodeGethReceiptFromRPC (raw : RawReceipt) :
    Except (List Char) MinimalReceipt :=
  .ok (decodeReceiptBody raw)

/-! ## Wait-and-retry loops (`waitForBlockHashByNumber`,
`computeReceiptsRootByHashWithRetry`)

Real time is embedded as a poll budget: `fuel` is the number of sleeps the
deadline still allows, and the RPC endpoint is an oracle giving the k-th
poll's result (`none` = not-found or RPC error). -/

/-- Result of a bounded poll loop: the value (or `none` on timeout) and the
number of `pollInterval` sleeps performed. -/
structure WaitOut (α : Type) where
  result : Option α
  sleeps : Nat

/-- Go `waitForBlockHashByNumber` (ws.go lines 482-501): poll, return on the
first success; on a miss return the timeout error if the deadline passed,
else sleep `interval` and retry.  `k` is the index of the current poll. -/
def waitForBlockHashByNumber (oracle : Nat → Option (List Nat)) :
    Nat → Nat → WaitOut (List Nat)
  | k, 0 =>
    match oracle k with
    | some h => ⟨some h, 0⟩
    | none => ⟨none, 0⟩
  | k, fuel + 1 =>
    match oracle k with
    | some h => ⟨some h, 0⟩
    | none =>
      let rest := waitForBlockHashByNumber oracle (k + 1) fuel
      ⟨rest.result, rest.sleeps + 1⟩

/-- Result of the receipts-root retry loop: the root (or `none` on timeout)
and how many times `ComputeReceiptsRootByHash` (an RPC round trip) ran. -/
structure RootRetryOut where
  result : Option (List Nat)
  rpcCalls : Nat
deriving DecidableEq

/-- The retry loop of `computeReceiptsRootByHashWithRetry`, polling
`ComputeReceiptsRootByHash` (the oracle) until success or timeout. -/
def rootRetryLoop (oracle : Nat → Option (List Nat)) :
    Nat → Nat → RootRetryOut
  | k, 0 =>
    match oracle k with
    | some r => ⟨some r, 1⟩
    | none => ⟨none, 1⟩
  | k, fuel + 1 =>
    match oracle k with
    | some r => ⟨some r, 1⟩
    | none =>
      let rest := rootRetryLoop oracle (k + 1) fuel
      ⟨rest.result, rest.rpcCalls + 1⟩

/-- The empty-trie receipts root constant of the source,
`common.HexToHash("0x56e81f171bcc55a6ff8345e692c0f86e5b48e01b996cadc001622fb5e363b421")`. -/
def emptyTrieRoot : List Nat :=
  hexToHash
    ("0x56e81f171bcc55a6ff8345e692c0f86e5b48e01b996cadc001622fb5e363b421".data)

/-- Go `computeReceiptsRootByHashWithRetry` (ws.go lines 526-550): with
`txCount == 0` it returns the empty-trie constant at once, before the loop
and before any RPC use; otherwise it polls `ComputeReceiptsRootByHash`
until success or timeout. -/
def computeReceiptsRootByHashWithRetry (oracle : Nat → Option (List Nat))
    (txCount : Nat) (fuel : Nat) : RootRetryOut :=
  if txCount = 0 then ⟨some emptyTrieRoot, 0⟩
  else rootRetryLoop oracle 0 fuel

/-! ## Per-push processing (`runOnce`, ws.go lines 231-365) -/

/-- One push message after the outer `unverifiedBlockPush` unmarshal: the
raw `blockbody.header` (`none` = absent/empty), the raw `blockbody.body`,
and `committee_index`. -/
structure PushMsg where
  header : Option Json
  body : Option Json
  committee : Nat

/-- Abstract results of the execution-layer and signing calls one push may
make: whether `waitForBlockHashVisible` confirms the hash in time, the
receipts-root retry outcome for a non-empty block, `getBlockNumberByHash`,
`waitForBlockHashByNumber`, whether `BLSSign` succeeds, and whether
`SubmitVerification` succeeds (its failure only logs). -/
structure ExecOracle where
  visibleOk : Bool
  rootRetry : Option (List Nat)
  numByHash : Option Nat
  hashByNum : Option (List Nat)
  signOk : Bool
  submitOk : Bool
deriving DecidableEq

/-- The arguments of one `SubmitVerification` call: the attestation's slot,
committee index and receipts root, and the recovered block hash. -/
structure Submission where
  slot : Nat
  committee : Nat
  root : List Nat
  hash : List Nat
deriving DecidableEq

/-- How many times the push invoked each collaborator. -/
structure CallCounts where
  visibleWaits : Nat
  numberWaits : Nat
  rootRetries : Nat
  numByHashQueries : Nat
  signCalls : Nat
  submitCalls : Nat
deriving DecidableEq

/-- No collaborator invoked. -/
def zeroCounts : CallCounts := ⟨0, 0, 0, 0, 0, 0⟩

/-- Outcome of one loop iteration of `runOnce` for one push: what was
submitted (if `SubmitVerification` was reached, successful or not), whether
the submission call succeeded, and the collaborator call counts. -/
structure PerPushResult where
  submitted : Option Submission
  delivered : Bool
  counts : CallCounts
deriving DecidableEq

/-- The semantics of `computeReceiptsRootByHashWithRetry` as seen by the
push: an empty block short-circuits to the empty-trie root, otherwise the
retry loop's outcome decides. -/
def rootWithRetryResult (txCount : Nat) (o : ExecOracle) : Option (List Nat) :=
  if txCount = 0 then some emptyTrieRoot else o.rootRetry

/-- The per-push section of `runOnce` (ws.go lines 231-365): outer
unmarshal, header decode, transaction count, the hash branch
(visibility wait → receipts root → optional slot back-fill whose failure is
swallowed) or the number branch (hash wait → receipts root), signing, and
submission.  Every failure skips the push (`continue`); none of them
returns. -/
def processPush (msg : Option PushMsg) (o : ExecOracle) : PerPushResult :=
  match msg with
  | none => ⟨none, false, zeroCounts⟩
  | some ub =>
    let d := decodeIdentity ub.header
    if d.ok = false then ⟨none, false, zeroCounts⟩
    else
      let txCount := txCountOf ub.body
      if d.hash ≠ zeroHash then
        if o.visibleOk = false then
          ⟨none, false, { zeroCounts with visibleWaits := 1 }⟩
        else
          match rootWithRetryResult txCount o with
          | none =>
            ⟨none, false, { zeroCounts with visibleWaits := 1, rootRetries := 1 }⟩
          | some root =>
            let backfill : Nat × Nat :=
              if d.slot = 0 then
                match o.numByHash with
                | some s => (s, 1)
                | none => (d.slot, 1)
              else (d.slot, 0)
            if o.signOk = false then
              ⟨none, false,
                { zeroCounts with
                    visibleWaits := 1
                    rootRetries := 1
                    numByHashQueries := backfill.2
                    signCalls := 1 }⟩
            else
              ⟨some ⟨backfill.1, ub.committee, root, d.hash⟩, o.submitOk,
                { zeroCounts with
                    visibleWaits := 1
                    rootRetries := 1
                    numByHashQueries := backfill.2
                    signCalls := 1
                    submitCalls := 1 }⟩
      else
        match o.hashByNum with
        | none => ⟨none, false, { zeroCounts with numberWaits := 1 }⟩
        | some h =>
          match rootWithRetryResult txCount o with
          | none =>
            ⟨none, false, { zeroCounts with numberWaits := 1, rootRetries := 1 }⟩
          | some root =>
            if o.signOk = false then
              ⟨none, false,
                { zeroCounts with
                    numberWaits := 1
                    rootRetries := 1
                    signCalls := 1 }⟩
            else
              ⟨some ⟨d.slot, ub.committee, root, h⟩, o.submitOk,
                { zeroCounts with
                    numberWaits := 1
                    rootRetries := 1
                    signCalls := 1
                    submitCalls := 1 }⟩

/-! ## The streaming loop of `runOnce` and the retry loop of
`RunWSValidator` -/

/-- One event the read loop of `runOnce` sees: a push message (with the
oracle results its processing will observe), a message that is not a push
(`msg.Params == nil`), a transport read error, or cancellation observed at
the top of the loop. -/
inductive WSEvent where
  | push (msg : Option PushMsg) (o : ExecOracle)
  | notPush
  | readErr
  | cancelled

/-- Events on which `runOnce` returns. -/
def isTerminalEvent : WSEvent → Bool
  | .readErr => true
  | .cancelled => true
  | _ => false

/-- Why `runOnce` returned. -/
inductive RunOnceExit where
  | transport
  | cancel
deriving DecidableEq

/-- What a run of the streaming loop produced: the exit cause (`none` while
the stream of events is not yet terminated) and the submissions attempted,
in order. -/
structure StreamResult where
  exit : Option RunOnceExit
  subs : List Submission
deriving DecidableEq

/-- The read loop of `runOnce` (ws.go lines 217-366): a read error or
cancellation returns; every other event — including every per-push
failure inside `processPush` — continues with the next read. -/
def runOnceLoop : List WSEvent → StreamResult
  | [] => ⟨none, []⟩
  | .cancelled :: _ => ⟨some .cancel, []⟩
  | .readErr :: _ => ⟨some .transport, []⟩
  | .notPush :: rest => runOnceLoop rest
  | .push m o :: rest =>
    let r := processPush m o
    let t := runOnceLoop rest
    ⟨t.exit,
      (match r.submitted with
       | some s => [s]
       | none => []) ++ t.subs⟩

/-- How one whole connect-subscribe-stream attempt ended: a transport
failure (dial, subscribe, or read, after `pushes` processed pushes), or
cancellation. -/
inductive AttemptEnd where
  | transport (pushes : Nat)
  | cancel

/-- Whether an attempt ended in a transport failure. -/
def isTransportEnd : AttemptEnd → Bool
  | .transport _ => true
  | .cancel => false

/-- How `RunWSValidator` returned: a fatal max-retries error or the
context's cancellation error, with the number of `runOnce` attempts made. -/
inductive WSRes where
  | fatal (attempts : Nat)
  | cancelled (attempts : Nat)
deriving DecidableEq

/-- The retry loop of `RunWSValidator`: attempt `k` runs; on cancellation
the context error propagates; on a transport failure the retry counter
(never reset) is bumped and, once it exceeds the budget, the fatal error
returns.  `b` is the remaining retry budget. -/
def runWSGo (res : Nat → AttemptEnd) : Nat → Nat → WSRes
  | k, 0 =>
    match res k with
    | .cancel => .cancelled (k + 1)
    | .transport _ => .fatal (k + 1)
  | k, b + 1 =>
    match res k with
    | .cancel => .cancelled (k + 1)
    | .transport _ => runWSGo res (k + 1) b

/-- The `RetryMax` normalisation of `RunWSValidator`: a non-positive
configured value becomes 5. -/
def effRetryMax (retryMax : Nat) : Nat := if retryMax = 0 then 5 else retryMax

/-- Go `RunWSValidator` (ws.go lines 159-178), given how each successive
`runOnce` attempt ends (`runOnce` never returns nil: its loop exits only
with an error). -/
def RunWSValidator (res : Nat → AttemptEnd) (retryMax : Nat) : WSRes :=
  runWSGo res 0 (effRetryMax retryMax)

/-! ## BLS signing adapter -/

/-- Modelled from the spec: the herumi BLS primitive used by the adapter.
The library itself is an external collaborator, not part of this
repository; per §4.1 and §8 of the spec its signing is a deterministic
function of the loaded secret and the message bytes (no randomness input),
its serialized public keys are 48 bytes and its signatures 96 bytes, so it
is embedded as a record of pure functions: `setLittleEndian` loads a
32-byte little-endian secret (possibly failing on invalid scalars),
`getPublicKey` serializes the compressed public key, `signByte` signs the
message bytes. -/
structure BLSPrims where
  setLittleEndian : List Nat → Option (List Nat)
  getPublicKey : List Nat → List Nat
  signByte : List Nat → List Nat → List Nat

/-- Go `reverseInPlace`: byte-order reversal (big-endian to little-endian). -/
def reverseBytes (b : List Nat) : List Nat := b.reverse

/-- Go `strings.TrimPrefix(s, "0x")`. -/
def trimHexPre (s : List Char) : List Char :=
  if startsWith0xExact s then s.drop 2 else s

/-- Go `loadHerumiSKFromRustBigEndianHex`: strict hex decode, exact 32-byte
check, byte reversal, `SetLittleEndian`, and public-key serialization. -/
def loadHerumiSKFromRustBigEndianHex (p : BLSPrims) (skHex : List Char) :
    Option (List Nat × List Nat) :=
  match hexDecodeStrict (trimHexPre skHex) with
  | none => none
  | some b =>
    if b.length ≠ 32 then none
    else
      match p.setLittleEndian (reverseBytes b) with
      | none => none
      | some sec => some (sec, p.getPublicKey sec)

/-- Go `BLSPubKeyHex`: derive the public key and render it `0x`-hex. -/
def BLSPubKeyHex (p : BLSPrims) (skHex : List Char) : Option (List Char) :=
  match loadHerumiSKFromRustBigEndianHex p skHex with
  | none => none
  | some (_, pk) => some ('0' :: 'x' :: bytesHex pk)

/-- Go `BLSSign`: re-derive the key material, sign the message bytes, return
the serialized signature and public key. -/
def BLSSign (p : BLSPrims) (skHex : List Char) (msg : List Nat) :
    Option (List Nat × List Nat) :=
  match loadHerumiSKFromRustBigEndianHex p skHex with
  | none => none
  | some (sec, pk) => some (p.signByte sec msg, pk)

/-! ## Lemmas on rendering -/

lemma decDigitsAux_mem (fuel : Nat) :
    ∀ n acc c, c ∈ decDigitsAux fuel n acc →
      c ∈ acc ∨ ∃ d, d < 10 ∧ c = digitChar d := by
  induction fuel with
  | zero => intro n acc c hc; exact Or.inl hc
  | succ fuel ih =>
    intro n acc c hc
    match n with
    | 0 => exact Or.inl hc
    | m + 1 =>
      rcases ih ((m + 1) / 10) (digitChar ((m + 1) % 10) :: acc) c hc with h | h
      · rcases List.mem_cons.1 h with h | h
        · exact Or.inr ⟨(m + 1) % 10, Nat.mod_lt _ (by norm_num), h⟩
        · exact Or.inl h
      · exact Or.inr h

lemma decRepr_mem {n : Nat} {c : Char} (hc : c ∈ decRepr n) :
    ∃ d, d < 10 ∧ c = digitChar d := by
  unfold decRepr at hc
  split at hc
  · rcases List.mem_singleton.1 hc with rfl
    exact ⟨0, by norm_num, rfl⟩
  · rcases decDigitsAux_mem n n [] c hc with h | h
    · cases h
    · exact h

lemma digitChar_range {d : Nat} (hd : d < 10) :
    48 ≤ (digitChar d).toNat ∧ (digitChar d).toNat ≤ 57 := by
  interval_cases d <;> decide

lemma digitChar_isDigit {d : Nat} (hd : d < 10) : (digitChar d).isDigit = true := by
  interval_cases d <;> decide

lemma hexCharLower_isLowerHex {d : Nat} (hd : d < 16) :
    isLowerHexDigit (hexCharLower d) = true := by
  interval_cases d <;> decide

lemma bytesHex_length (bs : List Nat) : (bytesHex bs).length = 2 * bs.length := by
  induction bs with
  | nil => rfl
  | cons b t ih =>
    simp only [bytesHex, List.map_cons, List.flatten_cons, List.length_append,
      List.length_cons] at *
    simp [byteHex, ih]
    ring

lemma bytesHex_mem {bs : List Nat} (hb : ∀ b ∈ bs, b < 256) :
    ∀ c ∈ bytesHex bs, isLowerHexDigit c = true := by
  induction bs with
  | nil => intro c hc; cases hc
  | cons b t ih =>
    intro c hc
    simp only [bytesHex, List.map_cons, List.flatten_cons, List.mem_append] at hc
    rcases hc with hc | hc
    · have hb256 : b < 256 := hb b (List.mem_cons_self _ _)
      rcases List.mem_cons.1 hc with rfl | hc
      · exact hexCharLower_isLowerHex (Nat.div_lt_of_lt_mul (by omega))
      · rcases List.mem_singleton.1 hc with rfl
        exact hexCharLower_isLowerHex (Nat.mod_lt _ (by norm_num))
    · exact ih (fun x hx => hb x (List.mem_cons_of_mem _ hx)) c hc

lemma toLowerChar_fix {c : Char} (h : c.toNat < 65 ∨ 90 < c.toNat) :
    toLowerChar c = c := by
  unfold toLowerChar
  split
  · omega
  · rfl

lemma isLowerHexDigit_toNat {c : Char} (h : isLowerHexDigit c = true) :
    (48 ≤ c.toNat ∧ c.toNat ≤ 57) ∨ (97 ≤ c.toNat ∧ c.toNat ≤ 102) := by
  simp only [isLowerHexDigit, Bool.or_eq_true, Bool.and_eq_true,
    decide_eq_true_eq] at h
  exact h

lemma isWS_false_of_ge {c : Char} (h : 48 ≤ c.toNat) : isWS c = false := by
  simp only [isWS, Bool.or_eq_false_iff, decide_eq_false_iff_not]
  and_intros <;> rintro rfl <;> simp_all

lemma toLowerStr_fix {l : List Char} (h : ∀ c ∈ l, toLowerChar c = c) :
    toLowerStr l = l := by
  induction l with
  | nil => rfl
  | cons a t ih =>
    simp only [toLowerStr, List.map_cons] at *
    rw [h a (List.mem_cons_self _ _), ih (fun c hc => h c (List.mem_cons_of_mem _ hc))]

/-! ## C1: the canonical encoder -/

/-- C1: for every AttestationData value, `MarshalAttestationJSON` (a pure
function, hence deterministic) returns exactly the bytes
`\x7b"slot":<decimal>,"committee_index":<decimal>,"receipts_root":"0x<64
lowercase hex digits>"\x7d`: the key order is fixed by the first conjunct,
the hex part has exactly 64 lowercase hex digits, the numbers render as
unquoted decimal digits, and no byte of the output is whitespace. -/
theorem marshalAttestation_canonical (att : AttestationData)
    (hslot : att.slot < 2 ^ 64) (hci : att.committee_index < 2 ^ 64)
    (hlen : att.receipts_root.length = 32)
    (hbytes : ∀ b ∈ att.receipts_root, b < 256) :
    MarshalAttestationJSON att =
      ("\x7b\"slot\":".data) ++ decRepr att.slot ++
      (",\"committee_index\":".data) ++ decRepr att.committee_index ++
      (",\"receipts_root\":\"0x".data) ++ bytesHex att.receipts_root ++
      ("\"\x7d".data)
    ∧ (∀ c ∈ MarshalAttestationJSON att, isWS c = false)
    ∧ (bytesHex att.receipts_root).length = 64
    ∧ (∀ c ∈ bytesHex att.receipts_root, isLowerHexDigit c = true)
    ∧ (∀ c ∈ decRepr att.slot, c.isDigit = true)
    ∧ (∀ c ∈ decRepr att.committee_index, c.isDigit = true) := by
  have hhex : ∀ c ∈ bytesHex att.receipts_root, isLowerHexDigit c = true :=
    bytesHex_mem hbytes
  have hfix : toLowerStr ('0' :: 'x' :: bytesHex att.receipts_root) =
      '0' :: 'x' :: bytesHex att.receipts_root := by
    apply toLowerStr_fix
    intro c hc
    rcases List.mem_cons.1 hc with rfl | hc
    · decide
    rcases List.mem_cons.1 hc with rfl | hc
    · decide
    · rcases isLowerHexDigit_toNat (hhex c hc) with h | h
      · exact toLowerChar_fix (Or.inl (by omega))
      · exact toLowerChar_fix (Or.inr (by omega))
  have h1 : MarshalAttestationJSON att =
      ("\x7b\"slot\":".data) ++ decRepr att.slot ++
      (",\"committee_index\":".data) ++ decRepr att.committee_index ++
      (",\"receipts_root\":\"0x".data) ++ bytesHex att.receipts_root ++
      ("\"\x7d".data) := by
    simp only [MarshalAttestationJSON, hashHex, hfix, List.append_assoc]
    rfl
  have hdigit : ∀ n, ∀ c ∈ decRepr n, isWS c = false := by
    intro n c hc
    rcases decRepr_mem hc with ⟨d, hd, rfl⟩
    exact isWS_false_of_ge (digitChar_range hd).1
  refine ⟨h1, ?_, ?_, hhex, ?_, ?_⟩
  · intro c hc
    rw [h1] at hc
    simp only [List.mem_append] at hc
    rcases hc with ((((((hc | hc) | hc) | hc) | hc) | hc) | hc)
    · exact (by decide : ∀ x ∈ ("\x7b\"slot\":".data), isWS x = false) c hc
    · exact hdigit _ c hc
    · exact (by decide : ∀ x ∈ (",\"committee_index\":".data), isWS x = false) c hc
    · exact hdigit _ c hc
    · exact (by decide : ∀ x ∈ (",\"receipts_root\":\"0x".data), isWS x = false) c hc
    · rcases isLowerHexDigit_toNat (hhex c hc) with h | h <;>
        exact isWS_false_of_ge (by omega)
    · exact (by decide : ∀ x ∈ ("\"\x7d".data), isWS x = false) c hc
  · rw [bytesHex_length, hlen]
  · intro c hc
    rcases decRepr_mem hc with ⟨d, hd, rfl⟩
    exact digitChar_isDigit hd
  · intro c hc
    rcases decRepr_mem hc with ⟨d, hd, rfl⟩
    exact digitChar_isDigit hd

/-- Sample attestation used to witness C1. -/
def attSample : AttestationData := ⟨7, 3, emptyTrieRoot⟩

/-- Witness for C1 at slot 7, committee index 3, the empty-trie root. -/
theorem marshalAttestation_canonical_witness :
    MarshalAttestationJSON attSample =
      ("\x7b\"slot\":".data) ++ decRepr attSample.slot ++
      (",\"committee_index\":".data) ++ decRepr attSample.committee_index ++
      (",\"receipts_root\":\"0x".data) ++ bytesHex attSample.receipts_root ++
      ("\"\x7d".data)
    ∧ (∀ c ∈ MarshalAttestationJSON attSample, isWS c = false)
    ∧ (bytesHex attSample.receipts_root).length = 64
    ∧ (∀ c ∈ bytesHex attSample.receipts_root, isLowerHexDigit c = true)
    ∧ (∀ c ∈ decRepr attSample.slot, c.isDigit = true)
    ∧ (∀ c ∈ decRepr attSample.committee_index, c.isDigit = true) :=
  marshalAttestation_canonical attSample (by decide) (by decide)
    (by decide) (by decide)

/-! ## C2: empty-block short-circuit -/

/-- C2: whatever the RPC oracle would answer and whatever the poll budget
(timeout/interval), a known transaction count of 0 makes
`computeReceiptsRootByHashWithRetry` return the empty-trie constant with no
error and zero invocations of `ComputeReceiptsRootByHash`; the constant is
the 32-byte value whose hex is
`56e81f171bcc55a6ff8345e692c0f86e5b48e01b996cadc001622fb5e363b421`. -/
theorem computeReceiptsRoot_emptyBlock_shortCircuit :
    (∀ (oracle : Nat → Option (List Nat)) (fuel : Nat),
      computeReceiptsRootByHashWithRetry oracle 0 fuel =
        ⟨some emptyTrieRoot, 0⟩)
    ∧ bytesHex emptyTrieRoot =
      ("56e81f171bcc55a6ff8345e692c0f86e5b48e01b996cadc001622fb5e363b421".data)
    ∧ emptyTrieRoot.length = 32 :=
  ⟨fun _ _ => rfl, by decide, by decide⟩

/-! ## C7: the block-by-number wait loop -/

lemma wait_success (oracle : Nat → Option (List Nat)) :
    ∀ fuel k d h, d ≤ fuel → oracle (k + d) = some h →
      (∀ j, j < d → oracle (k + j) = none) →
      waitForBlockHashByNumber oracle k fuel = ⟨some h, d⟩ := by
  intro fuel
  induction fuel with
  | zero =>
    intro k d h hd hs _
    interval_cases d
    simp only [Nat.add_zero] at hs
    simp [waitForBlockHashByNumber, hs]
  | succ fuel ih =>
    intro k d h hd hs hm
    match d with
    | 0 =>
      simp only [Nat.add_zero] at hs
      simp [waitForBlockHashByNumber, hs]
    | d + 1 =>
      have h0 : oracle k = none := by
        have := hm 0 (by omega)
        simpa using this
      have hrest : waitForBlockHashByNumber oracle (k + 1) fuel = ⟨some h, d⟩ := by
        apply ih (k + 1) d h (by omega)
        · have : k + 1 + d = k + (d + 1) := by omega
          rw [this]; exact hs
        · intro j hj
          have : k + 1 + j = k + (j + 1) := by omega
          rw [this]; exact hm (j + 1) (by omega)
      simp [waitForBlockHashByNumber, h0, hrest]

lemma wait_timeout (oracle : Nat → Option (List Nat)) :
    ∀ fuel k, (∀ d, d ≤ fuel → oracle (k + d) = none) →
      waitForBlockHashByNumber oracle k fuel = ⟨none, fuel⟩ := by
  intro fuel
  induction fuel with
  | zero =>
    intro k hm
    have h0 : oracle k = none := by simpa using hm 0 (by omega)
    simp [waitForBlockHashByNumber, h0]
  | succ fuel ih =>
    intro k hm
    have h0 : oracle k = none := by simpa using hm 0 (by omega)
    have hrest : waitForBlockHashByNumber oracle (k + 1) fuel = ⟨none, fuel⟩ := by
      apply ih (k + 1)
      intro d hd
      have : k + 1 + d = k + (d + 1) := by omega
      rw [this]; exact hm (d + 1) (by omega)
    simp [waitForBlockHashByNumber, h0, hrest]

lemma wait_none_iff (oracle : Nat → Option (List Nat)) :
    ∀ fuel k, (waitForBlockHashByNumber oracle k fuel).result = none ↔
      (∀ d, d ≤ fuel → oracle (k + d) = none) := by
  intro fuel
  induction fuel with
  | zero =>
    intro k
    cases ho : oracle k with
    | some h =>
      simp only [waitForBlockHashByNumber, ho]
      constructor
      · intro hc; cases hc
      · intro hall
        have := hall 0 (by omega)
        rw [Nat.add_zero, ho] at this
        cases this
    | none =>
      simp only [waitForBlockHashByNumber, ho]
      constructor
      · intro _ d hd
        interval_cases d
        simpa using ho
      · intro _; trivial
  | succ fuel ih =>
    intro k
    cases ho : oracle k with
    | some h =>
      simp only [waitForBlockHashByNumber, ho]
      constructor
      · intro hc; cases hc
      · intro hall
        have := hall 0 (by omega)
        rw [Nat.add_zero, ho] at this
        cases this
    | none =>
      simp only [waitForBlockHashByNumber, ho]
      constructor
      · intro hres d hd
        match d with
        | 0 => simpa using ho
        | d + 1 =>
          have : k + (d + 1) = k + 1 + d := by omega
          rw [this]
          exact ((ih (k + 1)).1 hres) d (by omega)
      · intro hall
        apply (ih (k + 1)).2
        intro d hd
        have : k + 1 + d = k + (d + 1) := by omega
        rw [this]; exact hall (d + 1) (by omega)

/-- C7: for every oracle (the block-by-number query) and every poll budget,
`waitForBlockHashByNumber` returns the hash of the first successful poll
having slept exactly once per preceding miss, returns a timeout after
sleeping between each of its `fuel + 1` failing polls when none succeeds,
and times out exactly when no poll within the budget succeeds. -/
theorem waitForBlockHashByNumber_firstPoll_or_timeout :
    ∀ (oracle : Nat → Option (List Nat)) (fuel : Nat),
    (∀ k h, k ≤ fuel → oracle k = some h → (∀ j, j < k → oracle j = none) →
      waitForBlockHashByNumber oracle 0 fuel = ⟨some h, k⟩)
    ∧ ((∀ k, k ≤ fuel → oracle k = none) →
      waitForBlockHashByNumber oracle 0 fuel = ⟨none, fuel⟩)
    ∧ ((waitForBlockHashByNumber oracle 0 fuel).result = none ↔
      ∀ k, k ≤ fuel → oracle k = none) := by
  intro oracle fuel
  refine ⟨?_, ?_, ?_⟩
  · intro k h hk hs hm
    apply wait_success oracle fuel 0 k h hk
    · simpa using hs
    · intro j hj; simpa using hm j hj
  · intro hall
    apply wait_timeout oracle fuel 0
    intro d hd; simpa using hall d hd
  · constructor
    · intro hres k hk
      have := (wait_none_iff oracle fuel 0).1 hres k hk
      simpa using this
    · intro hall
      apply (wait_none_iff oracle fuel 0).2
      intro d hd; simpa using hall d hd

/-! ## C6 and C9: loop containment and the retry budget -/

lemma runWSGo_fatal_inv (res : Nat → AttemptEnd) :
    ∀ b k n, runWSGo res k b = .fatal n →
      n = k + b + 1 ∧ ∀ j, k ≤ j → j < n → isTransportEnd (res j) = true := by
  intro b
  induction b with
  | zero =>
    intro k n hf
    cases hr : res k with
    | cancel => rw [runWSGo, hr] at hf; cases hf
    | transport p =>
      rw [runWSGo, hr] at hf
      cases hf
      refine ⟨rfl, ?_⟩
      intro j hj1 hj2
      have : j = k := by omega
      rw [this, hr]; rfl
  | succ b ih =>
    intro k n hf
    cases hr : res k with
    | cancel => rw [runWSGo, hr] at hf; cases hf
    | transport p =>
      rw [runWSGo, hr] at hf
      rcases ih (k + 1) n hf with ⟨hn, hall⟩
      refine ⟨by omega, ?_⟩
      intro j hj1 hj2
      rcases Nat.eq_or_lt_of_le hj1 with rfl | hlt
      · rw [hr]; rfl
      · exact hall j (by omega) hj2

lemma runWSGo_all_transport (res : Nat → AttemptEnd)
    (h : ∀ k, isTransportEnd (res k) = true) :
    ∀ b k, runWSGo res k b = .fatal (k + b + 1) := by
  intro b
  induction b with
  | zero =>
    intro k
    cases hr : res k with
    | cancel =>
      have hc := h k
      rw [hr] at hc
      cases hc
    | transport p => rw [runWSGo, hr]
  | succ b ih =>
    intro k
    cases hr : res k with
    | cancel =>
      have hc := h k
      rw [hr] at hc
      cases hc
    | transport p =>
      rw [runWSGo, hr]
      have hrec := ih (k + 1)
      have heq : k + 1 + b + 1 = k + (b + 1) + 1 := by omega
      rw [hrec, heq]

/-- C6: every per-push error — decode failure, visibility or
block-by-number timeout, receipts-root failure, signing error, or
submission error, all of which are inside `processPush` — leaves the read
loop running: a push event never changes the loop's exit.  The loop exits
exactly on a read error or cancellation event, and `RunWSValidator` returns
its fatal error only when every one of the first `effRetryMax + 1` attempts
ended in a transport failure. -/
theorem runner_per_push_errors_nonfatal :
    (∀ m o rest, (runOnceLoop (WSEvent.push m o :: rest)).exit =
      (runOnceLoop rest).exit)
    ∧ (∀ evs, (runOnceLoop evs).exit = none ↔
      ∀ e ∈ evs, isTerminalEvent e = false)
    ∧ (∀ res retryMax n, RunWSValidator res retryMax = WSRes.fatal n →
      n = effRetryMax retryMax + 1 ∧
        ∀ k, k < n → isTransportEnd (res k) = true) := by
  refine ⟨fun m o rest => rfl, ?_, ?_⟩
  · intro evs
    induction evs with
    | nil => simp [runOnceLoop]
    | cons e rest ih =>
      cases e with
      | push m o =>
        simp only [runOnceLoop]
        constructor
        · intro h x hx
          rcases List.mem_cons.1 hx with rfl | hx
          · rfl
          · exact (ih.1 h) x hx
        · intro h
          exact ih.2 (fun x hx => h x (List.mem_cons_of_mem _ hx))
      | notPush =>
        simp only [runOnceLoop]
        constructor
        · intro h x hx
          rcases List.mem_cons.1 hx with rfl | hx
          · rfl
          · exact (ih.1 h) x hx
        · intro h
          exact ih.2 (fun x hx => h x (List.mem_cons_of_mem _ hx))
      | readErr =>
        simp only [runOnceLoop]
        constructor
        · intro h; cases h
        · intro h
          have := h .readErr (List.mem_cons_self _ _)
          cases this
      | cancelled =>
        simp only [runOnceLoop]
        constructor
        · intro h; cases h
        · intro h
          have := h .cancelled (List.mem_cons_self _ _)
          cases this
  · intro res retryMax n hf
    rcases runWSGo_fatal_inv res (effRetryMax retryMax) 0 n hf with ⟨hn, hall⟩
    exact ⟨by omega, fun k hk => hall k (by omega) hk⟩

/-- C9: the retry counter of `RunWSValidator` is cumulative over the whole
run: whatever number of pushes each attempt streams successfully before its
transport failure (arbitrarily long streaming periods), the counter is
never reset, and the run ends fatally at exactly the
`effRetryMax + 1`-st transport failure. -/
theorem runWS_retry_budget_cumulative :
    ∀ (retryMax : Nat) (pushes : Nat → Nat),
      RunWSValidator (fun k => AttemptEnd.transport (pushes k)) retryMax =
        WSRes.fatal (effRetryMax retryMax + 1) := by
  intro retryMax pushes
  have h := runWSGo_all_transport (fun k => AttemptEnd.transport (pushes k))
    (fun _ => rfl) (effRetryMax retryMax) 0
  rw [RunWSValidator, h]
  simp

/-! ## C5: decode failure characterisation -/

lemma applyHdr_ok (hm : HdrMin) (st : DecodedId) (h : st.ok = false) :
    (applyHdr hm st).ok = shapeYields (some hm) := by
  obtain ⟨num, hsh⟩ := hm
  simp only [applyHdr, shapeYields]
  cases num with
  | none =>
    cases hsh with
    | none => simp [h]
    | some hstr =>
      by_cases hacc : hashStrAccepted hstr = true
      · simp [h, hacc]
      · simp only [Bool.not_eq_true] at hacc
        simp [h, hacc]
  | some jv =>
    cases hp : parseUint64JSON (some jv) with
    | ok v => simp [hp, exceptOk]
    | error e =>
      cases hsh with
      | none => simp [hp, h, exceptOk]
      | some hstr =>
        by_cases hacc : hashStrAccepted hstr = true
        · simp [hp, h, hacc, exceptOk]
        · simp [Bool.not_eq_true] at hacc
          simp [hp, h, hacc, exceptOk]

lemma decodeIdentity_ok_iff (hj : Option Json) :
    (decodeIdentity hj).ok =
      (shapeYields (unmarshalEnvelopeA hj) ||
        shapeYields (unmarshalHeaderMinimal hj)) := by
  simp only [decodeIdentity]
  cases hA : unmarshalEnvelopeA hj with
  | none =>
    cases hB : unmarshalHeaderMinimal hj with
    | none => simp [shapeYields]
    | some hmB =>
      have h2 := applyHdr_ok hmB ⟨0, zeroHash, false⟩ rfl
      simp [h2, shapeYields]
  | some hmA =>
    have hOkA := applyHdr_ok hmA ⟨0, zeroHash, false⟩ rfl
    cases hy : shapeYields (some hmA) with
    | true =>
      rw [hy] at hOkA
      simp [hOkA, hy]
    | false =>
      rw [hy] at hOkA
      cases hB : unmarshalHeaderMinimal hj with
      | none => simp [hOkA, shapeYields]
      | some hmB =>
        have h2 := applyHdr_ok hmB (applyHdr hmA ⟨0, zeroHash, false⟩) hOkA
        simp [hOkA, h2]

/-- C5 (amended): decoding fails — and the push is skipped with no
invocation of resolution, root computation, signing or submission, and the
read loop goes on — exactly when neither header shape yields a parseable
`number` nor a `hash` string passing the source's acceptance test, which
checks only the `0x` prefix and the 66-character length (it does not check
that the remaining 64 characters are hex digits). -/
theorem decode_failure_iff_skip :
    ∀ (ub : PushMsg) (o : ExecOracle),
    ((decodeIdentity ub.header).ok = false ↔
      ¬(shapeYields (unmarshalEnvelopeA ub.header) = true ∨
        shapeYields (unmarshalHeaderMinimal ub.header) = true))
    ∧ ((decodeIdentity ub.header).ok = false →
      processPush (some ub) o = ⟨none, false, zeroCounts⟩)
    ∧ (∀ rest, (runOnceLoop (WSEvent.push (some ub) o :: rest)).exit =
      (runOnceLoop rest).exit) := by
  intro ub o
  refine ⟨?_, ?_, fun rest => rfl⟩
  · rw [decodeIdentity_ok_iff]
    cases ha : shapeYields (unmarshalEnvelopeA ub.header) <;>
      cases hb : shapeYields (unmarshalHeaderMinimal ub.header) <;> simp
  · intro h
    simp [processPush, h]

/-- Header JSON whose only identity field is a 66-character `0x`-prefixed
hash of 64 `z` characters — not hex digits. -/
def cexNonHexHashHeader : Option Json :=
  some (Json.jobj [(keyHash, Json.jstr ('0' :: 'x' :: List.replicate 64 'z'))])

/-- Counterexample to C5 as stated: neither shape yields a number or a
hash of 64 hex digits (every one of the 64 characters after `0x` fails
`hexVal?`), yet decoding succeeds, because the source checks only the
prefix and the length. -/
theorem decode_failure_iff_cex :
    (decodeIdentity cexNonHexHashHeader).ok = true
    ∧ (∀ c ∈ List.replicate 64 'z', hexVal? c = none)
    ∧ ('0' :: 'x' :: List.replicate 64 'z').length = 66 := by decide

/-! ## C3: identity derivation before submission -/

/-- C3 (amended): for every push that reaches submission, if the push
supplied only a slot (no hash decoded, `d.hash = zeroHash`), the submitted
hash is exactly the one `waitForBlockHashByNumber` derived; if the push
supplied a hash and a nonzero slot was decoded, that slot is submitted;
and if only a hash was supplied (decoded slot 0), the back-fill query
`getBlockNumberByHash` is attempted and its result is submitted when it
succeeds — but its failure does not prevent submission (see the
counterexample), which is where the original claim fails. -/
theorem submission_identity_derivation (ub : PushMsg) (o : ExecOracle)
    (sub : Submission)
    (h : (processPush (some ub) o).submitted = some sub) :
    ((decodeIdentity ub.header).hash = zeroHash → o.hashByNum = some sub.hash)
    ∧ ((decodeIdentity ub.header).hash ≠ zeroHash →
        (decodeIdentity ub.header).slot ≠ 0 →
        sub.slot = (decodeIdentity ub.header).slot)
    ∧ (∀ s, (decodeIdentity ub.header).hash ≠ zeroHash →
        (decodeIdentity ub.header).slot = 0 → o.numByHash = some s →
        sub.slot = s) := by
  simp only [processPush] at h
  by_cases hok : (decodeIdentity ub.header).ok = false
  · simp [hok] at h
  · simp only [Bool.not_eq_false] at hok
    simp only [hok] at h
    by_cases hz : (decodeIdentity ub.header).hash = zeroHash
    · simp only [hz, ne_eq, not_true_eq_false, if_false, reduceIte] at h
      cases hbn : o.hashByNum with
      | none => simp [hbn] at h
      | some hsh =>
        simp only [hbn] at h
        cases hr : rootWithRetryResult (txCountOf ub.body) o with
        | none => simp [hr] at h
        | some root =>
          simp only [hr] at h
          by_cases hs : o.signOk = false
          · simp [hs] at h
          · simp only [Bool.not_eq_false] at hs
            simp only [hs] at h
            simp only [Bool.true_eq_false, if_false, reduceIte,
              Option.some.injEq] at h
            refine ⟨fun _ => ?_, fun hnz _ => absurd hz hnz,
              fun s hnz _ _ => absurd hz hnz⟩
            subst h
            simp [hbn]
    · simp only [hz, ne_eq, not_false_eq_true, if_true, reduceIte] at h
      by_cases hv : o.visibleOk = false
      · simp [hv] at h
      · simp only [Bool.not_eq_false] at hv
        simp only [hv, Bool.true_eq_false, if_false, reduceIte] at h
        cases hr : rootWithRetryResult (txCountOf ub.body) o with
        | none => simp [hr] at h
        | some root =>
          simp only [hr] at h
          by_cases hs : o.signOk = false
          · simp [hs] at h
          · simp only [Bool.not_eq_false] at hs
            simp only [hs, Bool.true_eq_false, if_false, reduceIte,
              Option.some.injEq] at h
            refine ⟨fun hzz => absurd hzz hz, fun _ hnz => ?_, fun s _ h0 hnum => ?_⟩
            · subst h
              simp [if_neg hnz]
            · subst h
              simp [if_pos h0, hnum]

/-- Header carrying only a hash: `0x` followed by 63 zeros and a 1. -/
def cexHashOnlyHeader : Option Json :=
  some (Json.jobj
    [(keyHash, Json.jstr ('0' :: 'x' :: (List.replicate 63 '0' ++ ['1'])))])

/-- A push supplying only a hash (committee index 3, empty body). -/
def cexPushHashOnly : PushMsg := ⟨cexHashOnlyHeader, none, 3⟩

/-- Oracle on which the slot back-fill query `getBlockNumberByHash`
fails while everything else succeeds. -/
def cexOracleBackfillFail : ExecOracle := ⟨true, none, none, none, true, true⟩

/-- Counterexample to C3 as stated: the push supplied only a hash, the
back-fill query for the slot failed (`numByHash = none`), and submission
nevertheless occurred — with the underived slot 0. -/
theorem submission_underived_slot_cex :
    (processPush (some cexPushHashOnly) cexOracleBackfillFail).submitted =
      some ⟨0, 3, emptyTrieRoot, List.replicate 31 0 ++ [1]⟩
    ∧ cexOracleBackfillFail.numByHash = none
    ∧ (decodeIdentity cexPushHashOnly.header).slot = 0
    ∧ (decodeIdentity cexPushHashOnly.header).hash ≠ zeroHash := by decide

/-- Header carrying only a slot number. -/
def witSlotOnlyHeader : Option Json :=
  some (Json.jobj [(keyNumber, Json.jnum ("5".data))])

/-- A push supplying only a slot (committee index 9, empty body). -/
def witPushSlotOnly : PushMsg := ⟨witSlotOnlyHeader, none, 9⟩

/-- Oracle whose block-by-number wait yields a concrete hash. -/
def witOracleDerive : ExecOracle :=
  ⟨true, none, none, some (List.replicate 31 0 ++ [2]), true, true⟩

/-- Witness for C3 (amended) on a slot-only push whose hash is derived by
`waitForBlockHashByNumber` before submission. -/
theorem submission_identity_derivation_witness :
    (processPush (some witPushSlotOnly) witOracleDerive).submitted =
      some ⟨5, 9, emptyTrieRoot, List.replicate 31 0 ++ [2]⟩
    ∧ ((decodeIdentity witPushSlotOnly.header).hash = zeroHash →
      witOracleDerive.hashByNum =
        some (⟨5, 9, emptyTrieRoot, List.replicate 31 0 ++ [2]⟩ : Submission).hash) :=
  ⟨by decide,
    (submission_identity_derivation witPushSlotOnly witOracleDerive
      ⟨5, 9, emptyTrieRoot, List.replicate 31 0 ++ [2]⟩ (by decide)).1⟩

/-! ## C4: receipt reconstruction never fails, fields default -/

set_option maxRecDepth 8192 in
/-- C4 (amended): for every receipt JSON object, `decodeGethReceiptFromRPC`
never returns an error (its only return is `rcpt, nil`), and every listed
field that is absent defaults — `cumulativeGasUsed`, `logs`, `bloom`,
`txHash`, `blockHash` and `contractAddress` to zero/empty, but `status` to
1, not 0 (see the counterexample against the claim as stated). -/
theorem decodeReceipt_never_fails_defaults :
    ∀ raw : RawReceipt,
    exceptOk (decodeGethReceiptFromRPC raw) = true
    ∧ (raw.cumulativeGasUsed = none →
      (decodeReceiptBody raw).cumulativeGasUsed = 0)
    ∧ (raw.logs = none → (decodeReceiptBody raw).logs = [])
    ∧ (raw.logsBloom = none →
      (decodeReceiptBody raw).bloom = List.replicate 256 0)
    ∧ (raw.transactionHash = none → (decodeReceiptBody raw).txHash = zeroHash)
    ∧ (raw.blockHash = none → (decodeReceiptBody raw).blockHash = zeroHash)
    ∧ (raw.contractAddress = none →
      (decodeReceiptBody raw).contractAddress = zeroAddress)
    ∧ (raw.status = none → (decodeReceiptBody raw).status = 1) := by
  intro raw
  refine ⟨rfl, ?_, ?_, ?_, ?_, ?_, ?_, ?_⟩ <;> intro h <;>
    simp only [decodeReceiptBody] <;> rw [h] <;> decide

/-- The receipt JSON object with every field absent. -/
def emptyRawReceipt : RawReceipt := ⟨none, none, none, none, none, none, none⟩

/-- Counterexample to C4 as stated: on a receipt JSON with `status` absent,
the reconstructed status is 1, not the claimed 0. -/
theorem decodeReceipt_status_default_cex :
    (decodeReceiptBody emptyRawReceipt).status = 1
    ∧ (decodeReceiptBody emptyRawReceipt).status ≠ 0 := by decide

/-! ## C8: BLS signing determinism -/

lemma loadHerumi_pk (p : BLSPrims) (skHex : List Char) (sec pk : List Nat)
    (h : loadHerumiSKFromRustBigEndianHex p skHex = some (sec, pk)) :
    pk = p.getPublicKey sec := by
  unfold loadHerumiSKFromRustBigEndianHex at h
  split at h
  · cases h
  · split at h
    · cases h
    · split at h
      · cases h
      · simp only [Option.some.injEq, Prod.mk.injEq] at h
        obtain ⟨rfl, h2⟩ := h
        exact h2.symm

/-- C8: with the BLS primitive a pure function of the loaded secret and the
message (its herumi `SignByte` takes no randomness) whose serializations
are 96 and 48 bytes, `BLSSign` is deterministic: two invocations on the
same hex secret and message return equal values, any successful result
carries a 96-byte signature and a 48-byte public key, the derived public
key agrees with `BLSPubKeyHex` (the one used to subscribe), and any second
successful invocation returns byte-identical signature and public key. -/
theorem blsSign_deterministic (p : BLSPrims) (skHex : List Char)
    (msg : List Nat)
    (hsig : ∀ sk m, (p.signByte sk m).length = 96)
    (hpk : ∀ sk, (p.getPublicKey sk).length = 48) :
    BLSSign p skHex msg = BLSSign p skHex msg
    ∧ ∀ sig pk, BLSSign p skHex msg = some (sig, pk) →
        sig.length = 96 ∧ pk.length = 48
        ∧ BLSPubKeyHex p skHex = some ('0' :: 'x' :: bytesHex pk)
        ∧ ∀ sig2 pk2, BLSSign p skHex msg = some (sig2, pk2) →
            sig2 = sig ∧ pk2 = pk := by
  refine ⟨rfl, ?_⟩
  intro sig pk h
  have h0 := h
  unfold BLSSign at h
  cases hl : loadHerumiSKFromRustBigEndianHex p skHex with
  | none => rw [hl] at h; cases h
  | some sp =>
    obtain ⟨sec, pk0⟩ := sp
    rw [hl] at h
    simp only [Option.some.injEq, Prod.mk.injEq] at h
    obtain ⟨hsg, hpk0⟩ := h
    have hpkeq : pk0 = p.getPublicKey sec := loadHerumi_pk p skHex sec pk0 hl
    refine ⟨?_, ?_, ?_, ?_⟩
    · rw [← hsg]; exact hsig sec msg
    · rw [← hpk0, hpkeq]; exact hpk sec
    · rw [BLSPubKeyHex, hl, hpk0]
    · intro sig2 pk2 h2
      rw [h0] at h2
      simp only [Option.some.injEq, Prod.mk.injEq] at h2
      exact ⟨h2.1.symm, h2.2.symm⟩

/-- Stand-in primitives witnessing C8's hypotheses: key loading is the
identity, the serialized public key 48 zero bytes, the signature 96 zero
bytes. -/
def demoPrims : BLSPrims :=
  ⟨fun b => some b, fun _ => List.replicate 48 0, fun _ _ => List.replicate 96 0⟩

/-- A 32-byte big-endian hex secret for the witness. -/
def demoSkHex : List Char := '0' :: 'x' :: List.replicate 64 'a'

/-- Witness for C8 at the stand-in primitives, `demoSkHex` and the message
bytes 1, 2, 3. -/
theorem blsSign_deterministic_witness :
    BLSSign demoPrims demoSkHex [1, 2, 3] = BLSSign demoPrims demoSkHex [1, 2, 3]
    ∧ ∀ sig pk, BLSSign demoPrims demoSkHex [1, 2, 3] = some (sig, pk) →
        sig.length = 96 ∧ pk.length = 48
        ∧ BLSPubKeyHex demoPrims demoSkHex = some ('0' :: 'x' :: bytesHex pk)
        ∧ ∀ sig2 pk2, BLSSign demoPrims demoSkHex [1, 2, 3] = some (sig2, pk2) →
            sig2 = sig ∧ pk2 = pk :=
  blsSign_deterministic demoPrims demoSkHex [1, 2, 3]
    (fun _ _ => by simp [demoPrims]) (fun _ => by simp [demoPrims])

/-! ## C10: hex truncation versus decimal overflow -/

lemma hexAccum_mem :
    ∀ (cs : List Char) (acc v : Nat), hexAccum cs acc = some v →
      ∀ c ∈ cs, hexVal? c ≠ none := by
  intro cs
  induction cs with
  | nil => intro acc v _ c hc; cases hc
  | cons a t ih =>
    intro acc v h c hc
    rw [hexAccum] at h
    cases hv : hexVal? a with
    | none => rw [hv] at h; cases h
    | some d =>
      rw [hv] at h
      rcases List.mem_cons.1 hc with rfl | hc
      · rw [hv]; intro hx; cases hx
      · exact ih _ v h c hc

lemma decAccum_mem :
    ∀ (cs : List Char) (acc v : Nat), decAccum cs acc = some v →
      ∀ c ∈ cs, decVal? c ≠ none := by
  intro cs
  induction cs with
  | nil => intro acc v _ c hc; cases hc
  | cons a t ih =>
    intro acc v h c hc
    rw [decAccum] at h
    cases hv : decVal? a with
    | none => rw [hv] at h; cases h
    | some d =>
      rw [hv] at h
      rcases List.mem_cons.1 hc with rfl | hc
      · rw [hv]; intro hx; cases hx
      · exact ih _ v h c hc

lemma hexVal?_ge48 {c : Char} (h : hexVal? c ≠ none) : 48 ≤ c.toNat := by
  unfold hexVal? at h
  split at h
  · omega
  · split at h
    · omega
    · split at h
      · omega
      · exact absurd rfl h

lemma decVal?_range {c : Char} (h : decVal? c ≠ none) :
    48 ≤ c.toNat ∧ c.toNat ≤ 57 := by
  unfold decVal? at h
  split at h
  · omega
  · exact absurd rfl h

lemma isSpaceChar_false_of_ge {c : Char} (h : 48 ≤ c.toNat) :
    isSpaceChar c = false := by
  simp only [isSpaceChar, Bool.or_eq_false_iff, decide_eq_false_iff_not]
  and_intros <;> rintro rfl <;> simp_all

lemma dropWhile_all_false {p : Char → Bool} {l : List Char}
    (h : ∀ c ∈ l, p c = false) : l.dropWhile p = l := by
  cases l with
  | nil => rfl
  | cons a t =>
    rw [List.dropWhile_cons, h a (List.mem_cons_self _ _)]
    simp

lemma trimSpace_id {l : List Char} (h : ∀ c ∈ l, isSpaceChar c = false) :
    trimSpace l = l := by
  unfold trimSpace
  rw [dropWhile_all_false h,
    dropWhile_all_false (fun c hc => h c (List.mem_reverse.1 hc)),
    List.reverse_reverse]

lemma setStringHex_of_digits {cs : List Char} {v : Nat}
    (h : hexDigitsVal cs = some v) : setStringHex cs = some (Int.ofNat v) := by
  have hmem : ∀ c ∈ cs, hexVal? c ≠ none := by
    intro c hc
    unfold hexDigitsVal at h
    split at h
    · cases h
    · exact hexAccum_mem cs 0 v h c hc
  unfold setStringHex
  split
  · have := hmem '+' (List.mem_cons_self _ _)
    simp [hexVal?] at this
  · have := hmem '-' (List.mem_cons_self _ _)
    simp [hexVal?] at this
  · rw [h]; rfl

lemma startsWith0xAnyCase_false_of_dec {cs : List Char}
    (hmem : ∀ c ∈ cs, decVal? c ≠ none) :
    startsWith0xAnyCase cs = false := by
  unfold startsWith0xAnyCase
  split
  · have := hmem 'x' (List.mem_cons_of_mem _ (List.mem_cons_self _ _))
    simp [decVal?] at this
  · have := hmem 'X' (List.mem_cons_of_mem _ (List.mem_cons_self _ _))
    simp [decVal?] at this
  · rfl

/-- C10: a quoted hex number field whose value exceeds `2^64 - 1` is
truncated modulo `2^64` by `parseUint64JSON` with no error reported
(`big.Int.Uint64`), while a quoted decimal of any value at or above `2^64`
is rejected with an error (`strconv.ParseUint`): the two encodings of the
same out-of-range value behave differently. -/
theorem parseUint64JSON_hex_truncates_dec_rejects
    (ds es : List Char) (v w : Nat)
    (hv : hexDigitsVal ds = some v) (hvBig : 2 ^ 64 ≤ v)
    (hw : decDigitsVal es = some w) (hwBig : 2 ^ 64 ≤ w) :
    parseUint64JSON (some (.jstr ('0' :: 'x' :: ds))) = .ok (v % 2 ^ 64)
    ∧ parseUint64JSON (some (.jstr es)) = .error ("bad dec number".data) := by
  have hmemx : ∀ c ∈ ds, hexVal? c ≠ none := by
    intro c hc
    unfold hexDigitsVal at hv
    split at hv
    · cases hv
    · exact hexAccum_mem ds 0 v hv c hc
  have hmemd : ∀ c ∈ es, decVal? c ≠ none := by
    intro c hc
    unfold decDigitsVal at hw
    split at hw
    · cases hw
    · exact decAccum_mem es 0 w hw c hc
  constructor
  · have htrim : trimSpace ('0' :: 'x' :: ds) = '0' :: 'x' :: ds := by
      apply trimSpace_id
      intro c hc
      rcases List.mem_cons.1 hc with rfl | hc
      · decide
      rcases List.mem_cons.1 hc with rfl | hc
      · decide
      · exact isSpaceChar_false_of_ge (hexVal?_ge48 (hmemx c hc))
    simp only [parseUint64JSON, htrim, List.isEmpty_cons, Bool.false_eq_true,
      if_false]
    have hsw : startsWith0xAnyCase ('0' :: 'x' :: ds) = true := rfl
    rw [hsw]
    simp only [if_true, List.drop_succ_cons, List.drop_zero]
    rw [setStringHex_of_digits hv]
    simp [bigIntUint64]
  · have hne : es ≠ [] := by
      intro he
      rw [he] at hw
      cases hw
    have htrim : trimSpace es = es := by
      apply trimSpace_id
      intro c hc
      exact isSpaceChar_false_of_ge (decVal?_range (hmemd c hc)).1
    have hemp : es.isEmpty = false := by
      cases es with
      | nil => exact absurd rfl hne
      | cons a t => rfl
    simp only [parseUint64JSON, htrim, hemp, Bool.false_eq_true, if_false]
    rw [startsWith0xAnyCase_false_of_dec hmemd]
    simp only [Bool.false_eq_true, if_false]
    have hparse : parseUint64Dec es = none := by
      unfold parseUint64Dec
      rw [hw]
      simp
      omega
    rw [hparse]

/-- Witness for C10: the hex string `0x10000000000000000` (value `2^64`)
parses to 0 without error, while the decimal string
`18446744073709551616` (the same value) is rejected. -/
theorem parseUint64JSON_hex_vs_dec_witness :
    parseUint64JSON (some (.jstr ('0' :: 'x' :: ("10000000000000000".data)))) =
      .ok (2 ^ 64 % 2 ^ 64)
    ∧ parseUint64JSON (some (.jstr ("18446744073709551616".data))) =
      .error ("bad dec number".data) :=
  parseUint64JSON_hex_truncates_dec_rejects
    ("10000000000000000".data) ("18446744073709551616".data)
    (2 ^ 64) (2 ^ 64) (by decide) (by norm_num) (by decide) (by norm_num)

end Attest
